import Mathlib

/-!
Verification of the SDG-MoneyMate-backend agent-orchestration core
(`ai-on/agents/services.py`, `ai-on/ai_core/services.py`,
`ai-on/ai_core/tools.py`, `ai-on/chat/services.py`,
`ai-on/onboarding/services.py`) via a shallow embedding.

Python dictionaries holding JSON-serializable values are embedded as
association lists `List (String × V)` over a small value type `V`; the
injected Django `User` object is the distinguished value `V.user`.
A Python function that may raise is embedded as a function into
`Except String _`, where `.error` models a raised, uncaught exception
escaping the function and `.ok` a normal return.
-/

namespace MoneyMate

/-- JSON-like values passed in tool arguments, tool results and turns.
`V.user` stands for the injected Django `User` object (not serializable). -/
inductive V : Type where
  | s (str : String)
  | n (int : Int)
  | b (bool : Bool)
  | user
  | vdict (fields : List (String × V))
  | vlist (elems : List V)
deriving Repr

/-- Python `d[k] = v` on a dict embedded as an association list:
overwrite in place if the key exists, else append at the end. -/
def dictSet (d : List (String × V)) (k : String) (v : V) : List (String × V) :=
  match d with
  | [] => [(k, v)]
  | (k', v') :: rest => if k' = k then (k, v) :: rest else (k', v') :: dictSet rest k v

/-- Python `d.get(k)` on a dict embedded as an association list. -/
def dictGet (d : List (String × V)) (k : String) : Option V :=
  match d with
  | [] => none
  | (k', v') :: rest => if k' = k then some v' else dictGet rest k

/-- The dict comprehension `{k: v for k, v in d.items() if k != key}`. -/
def dictDropKey (d : List (String × V)) (key : String) : List (String × V) :=
  d.filter (fun p => p.1 ≠ key)

/-- `agentModel` rows as used by the service layer: primary key and name
(the other columns do not influence the verified logic). -/
structure Agent : Type where
  id : Nat
  name : String

/-- One registry entry of `AGENT_FUNCTION_REGISTRY`:
`{'declaration': dict, 'function': callable}` (from `agents/services.py`).
The callable may raise, hence `Except`. -/
structure FuncEntry : Type where
  declaration : V
  fn : List (String × V) → Except String V

/-- The global `AGENT_FUNCTION_REGISTRY`
`{agent_id: {func_name: {'declaration': ..., 'function': ...}}}`,
embedded as a total map from agent id to an insertion-ordered
association list of per-agent functions (a missing agent id is the
empty list, matching `REGISTRY.get(agent_id, {})`). -/
def Registry : Type := Nat → List (String × FuncEntry)

/-- Lookup in an insertion-ordered association list of functions
(Python `func_name in d` / `d.get(func_name)`). -/
def alGet {α : Type} (l : List (String × α)) (k : String) : Option α :=
  match l with
  | [] => none
  | (k', v) :: rest => if k' = k then some v else alGet rest k

/-- `register_agent_function(agent_id, func_name, function_declaration, function)`
from `agents/services.py`: create the per-agent dict if absent, then insert
the entry only when `func_name` is not already present. -/
def registerAgentFunction (reg : Registry) (agentId : Nat) (funcName : String)
    (decl : V) (fn : List (String × V) → Except String V) : Registry :=
  let funcs := reg agentId
  let funcs' := if (alGet funcs funcName).isSome then funcs
                else funcs ++ [(funcName, ⟨decl, fn⟩)]
  fun i => if i = agentId then funcs' else reg i

/-- `get_agent_functions(agent_id)` from `agents/services.py`. -/
def getAgentFunctions (reg : Registry) (agentId : Nat) : List (String × FuncEntry) :=
  reg agentId

/-- `build_tools(agent)` from `agents/services.py`: `None` when no function
is registered, otherwise the list of declarations of the registered
functions in registration order (the `types.Tool` manifest). -/
def buildTools (reg : Registry) (agent : Agent) : Option (List V) :=
  let functions := getAgentFunctions reg agent.id
  if functions.length = 0 then none
  else some (functions.map (fun e => e.2.declaration))

/-- `execute_function(agent, func_name, args)` from `agents/services.py`:
look the function up for this agent; if present, call it with the given
args and return its result unchanged (an exception raised by the
implementation propagates); otherwise raise
`ValueError(f"Function '{func_name}' not found in agent '{agent.name}'.")`. -/
def executeFunction (reg : Registry) (agent : Agent) (funcName : String)
    (args : List (String × V)) : Except String V :=
  match alGet (getAgentFunctions reg agent.id) funcName with
  | some entry => entry.fn args
  | none => .error ("Function '" ++ funcName ++ "' not found in agent '"
      ++ agent.name ++ "'.")

/-- One `parts` element of a persisted `content_data` record or of an
in-memory `types.Content`: plain text, a `function_call`, or a
`function_response` (cf. `add_to_history` call sites). -/
inductive TPart : Type where
  | text (s : String)
  | functionCall (name : String) (args : List (String × V))
  | functionResponse (name : String) (response : V)
deriving Repr

/-- A `ConversationHistory` row created by `add_to_history(agent, user, part, role)`:
all call sites store `{"parts": [single_part]}`, so the payload is one `TPart`. -/
structure Turn : Type where
  role : String
  part : TPart
deriving Repr

/-- An in-memory `types.Content` (role plus parts) as sent to the Gemini API. -/
structure Content : Type where
  role : String
  parts : List TPart
deriving Repr

/-- One part of a Gemini response candidate: either a `function_call`
(`part.function_call` truthy) or a part without one (e.g. a text part). -/
inductive RPart : Type where
  | funcCall (name : String) (args : List (String × V))
  | textPart (s : String)
deriving Repr

/-- A Gemini `generate_content` response: `response.candidates[0].content.parts`
and the `response.text` accessor (`none` when no text is available). -/
structure GResponse : Type where
  parts : List RPart
  text : Option String
deriving Repr

/-- Whether a response part carries a `function_call`. -/
def isFc (p : RPart) : Bool :=
  match p with
  | .funcCall _ _ => true
  | .textPart _ => false

/-- The `function_call` content of a response part, if any. -/
def fcOf (p : RPart) : Option (String × List (String × V)) :=
  match p with
  | .funcCall n a => some (n, a)
  | .textPart _ => none

/-- State threaded through `process_coordinator_message`:
`persisted` are the `add_to_history` appends made by this invocation (in
order), `history` the in-memory `contents` list sent to Gemini,
`agentsCalled` the `agents_called` accumulator, and `gwRequests` logs, for
each `generate_content` call made, the `contents` argument it was given. -/
structure St : Type where
  persisted : List Turn
  history : List Content
  agentsCalled : List V
  gwRequests : List (List Content)
deriving Repr

/-- The value appended to `agents_called` for one function call:
`"budget_agent"` for `call_budget_agent`,
`func_args.get('agent_name', 'unknown')` for `send_message_to_agent`
(from `ai_core/services.py`, lines 162-165). -/
def calledEntryFor (funcName : String) (funcArgs : List (String × V)) : List V :=
  if funcName = "call_budget_agent" then [V.s "budget_agent"]
  else if funcName = "send_message_to_agent" then
    [(dictGet funcArgs "agent_name").getD (V.s "unknown")]
  else []

/-- The body of `for part in response.candidates[0].content.parts:` in
`process_coordinator_message` for a single part. For a `function_call`
part: inject `func_args['user'] = user`, track `agents_called`, execute
the function (a raised exception propagates), then persist the call
(with the `user` key stripped) as a model turn and the result as a
user-role turn, and append both to the in-memory history. A part without
a `function_call` changes nothing. -/
def procPart (reg : Registry) (agent : Agent) (st : St) (p : RPart) :
    Except String St :=
  match p with
  | .textPart _ => .ok st
  | .funcCall funcName args =>
    let funcArgs := dictSet args "user" V.user
    let called := st.agentsCalled ++ calledEntryFor funcName funcArgs
    match executeFunction reg agent funcName funcArgs with
    | .error e => .error e
    | .ok result =>
      let argsForHistory := dictDropKey funcArgs "user"
      .ok { persisted := st.persisted ++
              [⟨"model", .functionCall funcName argsForHistory⟩,
               ⟨"user", .functionResponse funcName result⟩],
            history := st.history ++
              [⟨"model", [.functionCall funcName argsForHistory]⟩,
               ⟨"user", [.functionResponse funcName result]⟩],
            agentsCalled := called,
            gwRequests := st.gwRequests }

/-- The whole `for part in ...` loop over a response's parts, in order. -/
def procParts (reg : Registry) (agent : Agent) (st : St) (ps : List RPart) :
    Except String St :=
  match ps with
  | [] => .ok st
  | p :: rest => match procPart reg agent st p with
    | .error e => .error e
    | .ok st' => procParts reg agent st' rest

/-- The dictionaries returned by `process_coordinator_message`:
`{"type": "response", "data": {"message", "agents_called"}}` on a final
text answer, `{"type": "error", "data": {"error": "Maximum iterations
reached. ..."}}` when the iteration cap is exhausted. -/
inductive CoordOutcome : Type where
  | response (message : String) (agentsCalled : Option (List V))
  | maxIterError
deriving Repr

/-- The `"type"` field of the dictionary a `CoordOutcome` stands for. -/
def coordOutcomeType (o : CoordOutcome) : String :=
  match o with
  | .response _ _ => "response"
  | .maxIterError => "error"

/-- `response.text if response.text else "I've processed your request."`
(the message returned on the final-response path). -/
def coordFinalMessage (t : Option String) : String :=
  match t with
  | some s => if s = "" then "I've processed your request." else s
  | none => "I've processed your request."

/-- `response.text if response.text else ""` (the text persisted as the
final model turn). -/
def coordPersistText (t : Option String) : String :=
  match t with
  | some s => if s = "" then "" else s
  | none => ""

/-- `agents_called if agents_called else None`. -/
def optCalled (l : List V) : Option (List V) :=
  if l.isEmpty then none else some l

/-- The `while iteration < max_iterations:` loop of
`process_coordinator_message`. `fuel` is the number of rounds still
allowed (initially `max_iterations = 5`), `iter` the zero-based index of
the next round; the Gemini backend is the oracle `gw`, giving the
response to the `iter`-th `generate_content` call. Each round logs the
request, processes every part, and either recurses (some part was a
function call) or persists and returns the final text response.
Exhausted fuel returns the maximum-iterations error dictionary. -/
def coordLoop (reg : Registry) (agent : Agent) (gw : Nat → GResponse) :
    Nat → Nat → St → Except String (CoordOutcome × St)
  | 0, _, st => .ok (.maxIterError, st)
  | fuel + 1, iter, st =>
    let resp := gw iter
    let st0 : St := { st with gwRequests := st.gwRequests ++ [st.history] }
    match procParts reg agent st0 resp.parts with
    | .error e => .error e
    | .ok st1 =>
      if resp.parts.any isFc then
        coordLoop reg agent gw fuel (iter + 1) st1
      else
        .ok (.response (coordFinalMessage resp.text) (optCalled st1.agentsCalled),
          { st1 with persisted := st1.persisted ++
              [⟨"model", .text (coordPersistText resp.text)⟩] })

/-- `process_coordinator_message(user, user_message)` from
`ai_core/services.py`: load the stored history (`hist0`), persist and
append the user message as a user turn, then run the bounded loop with
`max_iterations = 5`. The agent row and the function registry are the
ambient state set up by `get_or_create_coordinator_agent`. -/
def processCoordinatorMessage (reg : Registry) (agent : Agent)
    (gw : Nat → GResponse) (hist0 : List Content) (userMessage : String) :
    Except String (CoordOutcome × St) :=
  let st0 : St := { persisted := [⟨"user", .text userMessage⟩],
                    history := hist0 ++ [⟨"user", [.text userMessage]⟩],
                    agentsCalled := [],
                    gwRequests := [] }
  coordLoop reg agent gw 5 0 st0

/-! ## `clean_html_tags` (chat/services.py) -/

/-- The ASCII characters Python's `str.strip()` removes. -/
def isPySpace (c : Char) : Bool :=
  c = ' ' || c = '\t' || c = '\n' || c = '\r' || c = '\x0b' || c = '\x0c'

/-- Index of the first `'>'` in a character list (what the regex engine
finds when matching the `[^>]+>` suffix of `<[^>]+>`). -/
def findGt : List Char → Option Nat
  | [] => none
  | c :: rest => if c = '>' then some 0 else (findGt rest).map (· + 1)

/-- `re.sub(r'<[^>]+>', '', text)` on the character list: scan left to
right; at a `'<'` whose first following `'>'` sits at least two
positions later, the (unique, maximal-for-this-regex) match `<[^>]+>`
extends exactly to that first `'>'` and is removed; otherwise the
character is kept and scanning resumes at the next position. The `fuel`
argument only bounds the recursion depth (one unit per scanned or
removed region suffices, so `l.length` units always do). -/
def cleanSubF : Nat → List Char → List Char
  | 0, _ => []
  | _ + 1, [] => []
  | fuel + 1, c :: rest =>
    if c = '<' then
      match findGt rest with
      | some j => if 1 ≤ j then cleanSubF fuel (rest.drop (j + 1))
                  else c :: cleanSubF fuel rest
      | none => c :: cleanSubF fuel rest
    else c :: cleanSubF fuel rest

/-- The regex substitution at adequate fuel. -/
def cleanSub (l : List Char) : List Char := cleanSubF l.length l

/-- Python `str.strip()`: drop leading and trailing whitespace. -/
def pyStrip (l : List Char) : List Char :=
  ((l.dropWhile isPySpace).reverse.dropWhile isPySpace).reverse

/-- `clean_html_tags(text)` from `chat/services.py`:
`re.sub(r'<[^>]+>', '', text)` followed by `.strip()`. -/
def cleanHtmlTags (s : String) : String :=
  String.mk (pyStrip (cleanSub s.data))

/-- Whether the regex `<[^>]+>` matches at the start of `'<' :: l`,
i.e. whether the first `'>'` of `l` exists at index ≥ 1. -/
def tagAt (l : List Char) : Bool :=
  match findGt l with
  | some j => decide (1 ≤ j)
  | none => false

/-- Whether any substring of `l` matches the HTML-tag regex `<[^>]+>`. -/
def hasTag : List Char → Bool
  | [] => false
  | c :: rest => (c = '<' && tagAt rest) || hasTag rest

/-! ## Chatbot orchestration loop (chat/services.py) -/

/-- The dictionaries returned by `process_chatbot_message`:
`{"type": "success", "data": {"message": ...}}` on a final text answer;
`{"type": "error", "data": {"message": "I apologize, ..."}}` both when
the model returns an empty response (the `break`) and when the
iteration cap is exhausted. -/
inductive ChatOutcome : Type where
  | success (message : String)
  | errorFallback
deriving Repr

/-- The `"type"` field of the dictionary a `ChatOutcome` stands for. -/
def chatOutcomeType (o : ChatOutcome) : String :=
  match o with
  | .success _ => "success"
  | .errorFallback => "error"

/-- State threaded through `process_chatbot_message`: the
`add_to_history` appends made by this invocation and the in-memory
`history` list. -/
structure ChatSt : Type where
  persisted : List Turn
  history : List Content
deriving Repr

/-- The `if func_name == ... : result = ...(user, **func_args)` chain of
`process_chatbot_message`: `impls` maps each of the five wired function
names to its implementation (with the session user already bound); an
unknown name yields the `{"type": "error", "data": {"error": "Unknown
function: ..."}}` dictionary as a value. -/
def chatDispatch (impls : String → Option (List (String × V) → Except String V))
    (funcName : String) (args : List (String × V)) : Except String V :=
  match impls funcName with
  | some f => f args
  | none => .ok (V.vdict [("type", V.s "error"),
      ("data", V.vdict [("error", V.s ("Unknown function: " ++ funcName))])])

/-- The fallback text used when `response.text` is unavailable. -/
def chatFallbackText : String :=
  "I apologize, but I encountered an issue processing your request. Please try again."

/-- The `while iteration < max_iterations:` loop of
`process_chatbot_message`. An empty `parts` list breaks out (same error
dictionary as cap exhaustion). Otherwise the first `function_call` part,
if any, is persisted as a model turn, dispatched, persisted *again*
together with the response turn, and the loop continues; with no
function call the final text is passed through `clean_html_tags`,
persisted as the final model turn and returned. -/
def chatLoop (impls : String → Option (List (String × V) → Except String V))
    (gw : Nat → GResponse) :
    Nat → Nat → ChatSt → Except String (ChatOutcome × ChatSt)
  | 0, _, st => .ok (.errorFallback, st)
  | fuel + 1, iter, st =>
    let resp := gw iter
    if resp.parts.isEmpty then .ok (.errorFallback, st)
    else
      match resp.parts.findSome? fcOf with
      | some (funcName, funcArgs) =>
        let st1 : ChatSt :=
          { persisted := st.persisted ++ [⟨"model", .functionCall funcName funcArgs⟩],
            history := st.history ++ [⟨"model", [.functionCall funcName funcArgs]⟩] }
        match chatDispatch impls funcName funcArgs with
        | .error e => .error e
        | .ok result =>
          let st2 : ChatSt :=
            { persisted := st1.persisted ++
                [⟨"model", .functionCall funcName funcArgs⟩,
                 ⟨"user", .functionResponse funcName result⟩],
              history := st1.history ++
                [⟨"model", [.functionCall funcName funcArgs]⟩,
                 ⟨"user", [.functionResponse funcName result]⟩] }
          chatLoop impls gw fuel (iter + 1) st2
      | none =>
        let raw := match resp.text with
          | some t => t
          | none => chatFallbackText
        let finalMessage := cleanHtmlTags raw
        .ok (.success finalMessage,
          { st with persisted := st.persisted ++ [⟨"model", .text finalMessage⟩] })

/-- `process_chatbot_message(user, message)` from `chat/services.py`:
on an empty stored history the first turn is the formatted financial
profile plus the user message, otherwise just the message; then the
bounded loop runs with `max_iterations = 5`. -/
def processChatbotMessage (impls : String → Option (List (String × V) → Except String V))
    (gw : Nat → GResponse) (profile : String) (hist0 : List Content)
    (message : String) : Except String (ChatOutcome × ChatSt) :=
  let initialText := if hist0.isEmpty then profile ++ "\n\nUSER MESSAGE: " ++ message
                     else message
  let st0 : ChatSt := { persisted := [⟨"user", .text initialText⟩],
                        history := hist0 ++ [⟨"user", [.text initialText]⟩] }
  chatLoop impls gw 5 0 st0

/-! ## Onboarding turn (onboarding/services.py) -/

/-- `response.text if response.text else ""`. -/
def textOrEmpty (t : Option String) : String :=
  match t with
  | some s => if s = "" then "" else s
  | none => ""

/-- The history preparation of `process_onboarding_turn`: append the user
message as a user turn when one was provided (Python truthiness: an
empty string counts as absent), then, if the history is empty or ends in
a model turn, inject the synthetic `"start"` user turn. Returns the
in-memory history to be sent to Gemini and the turns persisted so far. -/
def onbPrep (hist0 : List Content) (userMessage : Option String) :
    List Content × List Turn :=
  let s1 : List Content × List Turn :=
    match userMessage with
    | some m =>
      if m = "" then (hist0, [])
      else (hist0 ++ [⟨"user", [.text m]⟩], [⟨"user", .text m⟩])
    | none => (hist0, [])
  if s1.1.isEmpty || (s1.1.getLast?.map Content.role) = some "model" then
    (s1.1 ++ [⟨"user", [.text "start"]⟩], s1.2 ++ [⟨"user", .text "start"⟩])
  else s1

/-- The dictionaries returned by `process_onboarding_turn`:
`{"type": "question", ...}`, `{"type": "finsh", ...}` (typo in source),
or `{"type": "error", "data": {"error": "Agent did not call a function.
Please try again."}}`. -/
inductive OnbOutcome : Type where
  | question (result : V)
  | finsh (result : V)
  | errNoFunc
deriving Repr

/-- The `"type"` field of the dictionary an `OnbOutcome` stands for. -/
def onbOutcomeType (o : OnbOutcome) : String :=
  match o with
  | .question _ => "question"
  | .finsh _ => "finsh"
  | .errNoFunc => "error"

/-- The `for part in response.candidates[0].content.parts:` scan of
`process_onboarding_turn`: execute each `function_call` part in order
(injecting `user` only for `finish_onboarding_and_save_info`); return on
the first `ask_question` or `finish_onboarding_and_save_info` call;
`none` when no part triggers a return. -/
def onbParts (reg : Registry) (agent : Agent) :
    List RPart → Except String (Option OnbOutcome)
  | [] => .ok none
  | p :: rest =>
    match p with
    | .textPart _ => onbParts reg agent rest
    | .funcCall funcName args =>
      let funcArgs := if funcName = "finish_onboarding_and_save_info" then
          dictSet args "user" V.user
        else args
      match executeFunction reg agent funcName funcArgs with
      | .error e => .error e
      | .ok result =>
        if funcName = "ask_question" then .ok (some (.question result))
        else if funcName = "finish_onboarding_and_save_info" then
          .ok (some (.finsh result))
        else onbParts reg agent rest

/-- `process_onboarding_turn(user, user_message)` from
`onboarding/services.py`: prepare the history, make the single
`generate_content` call (the oracle `gw` receives exactly the prepared
history), persist the model text turn, then scan the parts. Returns the
outcome and the turns persisted by this invocation. -/
def processOnboardingTurn (reg : Registry) (agent : Agent)
    (gw : List Content → GResponse) (hist0 : List Content)
    (userMessage : Option String) : Except String (OnbOutcome × List Turn) :=
  let prep := onbPrep hist0 userMessage
  let resp := gw prep.1
  let t2 := prep.2 ++ [⟨"model", .text (textOrEmpty resp.text)⟩]
  match onbParts reg agent resp.parts with
  | .error e => .error e
  | .ok (some o) => .ok (o, t2)
  | .ok none => .ok (.errNoFunc, t2)

/-! ## Inter-agent router (ai_core/tools.py) -/

/-- The keys of the `agent_map` dictionary in `send_message_to_agent`
(the caller's fixed allow-list, identical to the `enum` of
`send_message_to_agent_declaration`). -/
def routerAgentNames : List String :=
  ["budget_agent", "chatbot_agent", "market_watcher", "receipt_parser",
   "product_advisor", "notification_agent", "expense_manager",
   "forecast_agent", "report_agent"]

/-- `send_message_to_agent(agent_name, message, user)` from
`ai_core/tools.py`: if the target is a key of `agent_map`, invoke the
mapped `call_*` function with the same user and the message and return
its result unchanged (`agentMap` embeds the dictionary's values);
otherwise raise `ValueError(f"Agent '{agent_name}' is not recognized or
not yet implemented.")`. -/
def sendMessageToAgent (agentMap : String → V → String → Except String V)
    (agentName message : String) (userCtx : V) : Except String V :=
  if agentName ∈ routerAgentNames then agentMap agentName userCtx message
  else .error ("Agent '" ++ agentName ++ "' is not recognized or not yet implemented.")

/-! ## Lemmas about the registry -/

lemma alGet_self_append {α : Type} (l : List (String × α)) (k : String) (v : α) :
    (alGet (l ++ [(k, v)]) k).isSome = true := by
  induction l with
  | nil => simp [alGet]
  | cons p rest ih =>
    obtain ⟨k1, v1⟩ := p
    by_cases h : k1 = k
    · simp [alGet, h]
    · simpa [alGet, h] using ih

lemma register_keeps_name (reg : Registry) (agentId : Nat) (funcName : String)
    (d : V) (f : List (String × V) → Except String V) :
    (alGet (registerAgentFunction reg agentId funcName d f agentId) funcName).isSome
      = true := by
  unfold registerAgentFunction
  by_cases h : (alGet (reg agentId) funcName).isSome
  · simp [h]
  · simp [h, alGet_self_append]

/-- Claim C6: `register_agent_function` is idempotent and never
overwrites: registering the same `(agent, toolName)` a second time, even
with a different declaration or implementation, leaves the registry and
the `build_tools` manifest exactly as they were after the first call. -/
theorem C6_register_agent_function_idempotent
    (reg : Registry) (agent : Agent) (funcName : String) (d d' : V)
    (f f' : List (String × V) → Except String V) :
    registerAgentFunction (registerAgentFunction reg agent.id funcName d f)
        agent.id funcName d' f'
      = registerAgentFunction reg agent.id funcName d f
    ∧ buildTools (registerAgentFunction (registerAgentFunction reg agent.id funcName d f)
        agent.id funcName d' f') agent
      = buildTools (registerAgentFunction reg agent.id funcName d f) agent := by
  have hsome := register_keeps_name reg agent.id funcName d f
  have hreg : registerAgentFunction (registerAgentFunction reg agent.id funcName d f)
      agent.id funcName d' f' = registerAgentFunction reg agent.id funcName d f := by
    funext i
    by_cases h : i = agent.id
    · subst h
      conv_lhs => rw [registerAgentFunction]
      simp [hsome]
    · conv_lhs => rw [registerAgentFunction]
      simp [h]
  exact ⟨hreg, by rw [hreg]⟩

/-! ## Lemmas about the coordinator loop -/

/-- Role of the last turn of an in-memory history. -/
def lastRole (l : List Content) : Option String :=
  l.getLast?.map Content.role

/-- A persisted turn whose payload is a `function_call` stores no
`'user'` key in its args. -/
def noUserArgs (t : Turn) : Prop :=
  ∀ n a, t.part = .functionCall n a → ∀ p ∈ a, p.1 ≠ "user"

/-- The execution of the `function_call` carried by `p` (with the
injected user) succeeds. -/
def execOk (reg : Registry) (agent : Agent) (p : RPart) : Prop :=
  ∀ n a, p = .funcCall n a →
    ∃ v, executeFunction reg agent n (dictSet a "user" V.user) = .ok v

lemma procParts_no_fc (reg : Registry) (agent : Agent) (st : St)
    (ps : List RPart) (h : ps.any isFc = false) :
    procParts reg agent st ps = .ok st := by
  induction ps generalizing st with
  | nil => rfl
  | cons p rest ih =>
    simp only [List.any_cons, Bool.or_eq_false_iff] at h
    cases p with
    | funcCall n a => simp [isFc] at h
    | textPart s => simpa [procParts, procPart] using ih st h.2

lemma procPart_gwRequests (reg : Registry) (agent : Agent) (st st' : St)
    (p : RPart) (h : procPart reg agent st p = .ok st') :
    st'.gwRequests = st.gwRequests := by
  cases p with
  | textPart s =>
    simp only [procPart] at h
    cases h
    rfl
  | funcCall n a =>
    simp only [procPart] at h
    cases hex : executeFunction reg agent n (dictSet a "user" V.user) with
    | error e => rw [hex] at h; cases h
    | ok v => rw [hex] at h; cases h; rfl

lemma procPart_history (reg : Registry) (agent : Agent) (st st' : St)
    (p : RPart) (h : procPart reg agent st p = .ok st') :
    st'.history = st.history ∨ lastRole st'.history = some "user" := by
  cases p with
  | textPart s =>
    simp only [procPart] at h
    cases h
    exact Or.inl rfl
  | funcCall n a =>
    simp only [procPart] at h
    cases hex : executeFunction reg agent n (dictSet a "user" V.user) with
    | error e => rw [hex] at h; cases h
    | ok v =>
      rw [hex] at h
      cases h
      right
      simp [lastRole]

lemma procPart_persisted (reg : Registry) (agent : Agent) (st st' : St)
    (p : RPart) (h : procPart reg agent st p = .ok st')
    (hprev : ∀ t ∈ st.persisted, noUserArgs t) :
    ∀ t ∈ st'.persisted, noUserArgs t := by
  cases p with
  | textPart s =>
    simp only [procPart] at h
    cases h
    exact hprev
  | funcCall n a =>
    simp only [procPart] at h
    cases hex : executeFunction reg agent n (dictSet a "user" V.user) with
    | error e => rw [hex] at h; cases h
    | ok v =>
      rw [hex] at h
      cases h
      intro t ht
      simp only [List.mem_append, List.mem_cons] at ht
      rcases ht with ht | ht | ht | ht
      · exact hprev t ht
      · subst ht
        intro n' a' hpart q hq
        simp only [TPart.functionCall.injEq] at hpart
        rw [← hpart.2] at hq
        have := List.of_mem_filter hq
        simpa using this
      · subst ht
        intro n' a' hpart q hq
        cases hpart
      · cases ht

lemma procParts_gwRequests (reg : Registry) (agent : Agent) (st st' : St)
    (ps : List RPart) (h : procParts reg agent st ps = .ok st') :
    st'.gwRequests = st.gwRequests := by
  induction ps generalizing st with
  | nil =>
    simp only [procParts] at h
    cases h
    rfl
  | cons p rest ih =>
    simp only [procParts] at h
    cases hp : procPart reg agent st p with
    | error e => rw [hp] at h; cases h
    | ok st1 =>
      rw [hp] at h
      rw [ih st1 h, procPart_gwRequests reg agent st st1 p hp]

lemma procParts_history (reg : Registry) (agent : Agent) (st st' : St)
    (ps : List RPart) (h : procParts reg agent st ps = .ok st') :
    st'.history = st.history ∨ lastRole st'.history = some "user" := by
  induction ps generalizing st with
  | nil =>
    simp only [procParts] at h
    cases h
    exact Or.inl rfl
  | cons p rest ih =>
    simp only [procParts] at h
    cases hp : procPart reg agent st p with
    | error e => rw [hp] at h; cases h
    | ok st1 =>
      rw [hp] at h
      rcases ih st1 h with h2 | h2
      · rw [h2]
        exact procPart_history reg agent st st1 p hp
      · exact Or.inr h2

lemma procParts_persisted (reg : Registry) (agent : Agent) (st st' : St)
    (ps : List RPart) (h : procParts reg agent st ps = .ok st')
    (hprev : ∀ t ∈ st.persisted, noUserArgs t) :
    ∀ t ∈ st'.persisted, noUserArgs t := by
  induction ps generalizing st with
  | nil =>
    simp only [procParts] at h
    cases h
    exact hprev
  | cons p rest ih =>
    simp only [procParts] at h
    cases hp : procPart reg agent st p with
    | error e => rw [hp] at h; cases h
    | ok st1 =>
      rw [hp] at h
      exact ih st1 h (procPart_persisted reg agent st st1 p hp hprev)

lemma procParts_total (reg : Registry) (agent : Agent) (st : St)
    (ps : List RPart) (h : ∀ p ∈ ps, execOk reg agent p) :
    ∃ st', procParts reg agent st ps = .ok st' := by
  induction ps generalizing st with
  | nil => exact ⟨st, rfl⟩
  | cons p rest ih =>
    have hp : ∃ st1, procPart reg agent st p = .ok st1 := by
      cases p with
      | textPart s => exact ⟨st, rfl⟩
      | funcCall n a =>
        obtain ⟨v, hv⟩ := h _ (List.mem_cons_self _ rest) n a rfl
        cases hp : procPart reg agent st (.funcCall n a) with
        | ok st1 => exact ⟨st1, rfl⟩
        | error e => simp [procPart, hv] at hp
    obtain ⟨st1, hst1⟩ := hp
    obtain ⟨st', hst'⟩ := ih st1 (fun q hq => h q (List.mem_cons_of_mem p hq))
    exact ⟨st', by simp only [procParts, hst1, hst']⟩

lemma coordLoop_succ (reg : Registry) (agent : Agent) (gw : Nat → GResponse)
    (fuel iter : Nat) (st : St) :
    coordLoop reg agent gw (fuel + 1) iter st =
      match procParts reg agent { st with gwRequests := st.gwRequests ++ [st.history] }
        (gw iter).parts with
      | .error e => .error e
      | .ok st1 =>
        if (gw iter).parts.any isFc then
          coordLoop reg agent gw fuel (iter + 1) st1
        else
          .ok (.response (coordFinalMessage (gw iter).text) (optCalled st1.agentsCalled),
            { st1 with persisted := st1.persisted ++
                [⟨"model", .text (coordPersistText (gw iter).text)⟩] }) := rfl

lemma coordLoop_exceeded (reg : Registry) (agent : Agent) (gw : Nat → GResponse)
    (fuel iter : Nat) (st : St)
    (hfc : ∀ i, iter ≤ i → i < iter + fuel → (gw i).parts.any isFc = true)
    (hok : ∀ i, iter ≤ i → i < iter + fuel → ∀ p ∈ (gw i).parts, execOk reg agent p) :
    ∃ st', coordLoop reg agent gw fuel iter st = .ok (.maxIterError, st')
      ∧ st'.gwRequests.length = st.gwRequests.length + fuel := by
  induction fuel generalizing iter st with
  | zero => exact ⟨st, rfl, rfl⟩
  | succ fuel ih =>
    have h0 : iter < iter + (fuel + 1) := by omega
    obtain ⟨st1, hst1⟩ := procParts_total reg agent
      { st with gwRequests := st.gwRequests ++ [st.history] } (gw iter).parts
      (hok iter (le_refl _) h0)
    rw [coordLoop_succ, hst1]
    simp only [hfc iter (le_refl _) h0, if_true]
    obtain ⟨st', h1, h2⟩ := ih (iter + 1) st1
      (fun i hi1 hi2 => hfc i (by omega) (by omega))
      (fun i hi1 hi2 => hok i (by omega) (by omega))
    refine ⟨st', h1, ?_⟩
    rw [h2, procParts_gwRequests reg agent _ st1 _ hst1]
    simp only [List.length_append, List.length_singleton]
    omega

/-- Claim C2: if each of the 5 rounds of the coordinator loop yields at
least one tool call (and its executions return normally) and never a
plain-text answer, the loop terminates with the maximum-iterations
dictionary — an `{"type": "error"}` value returned normally, not a
raised exception — after exactly 5 Gemini requests; no 6th request is
made. -/
theorem C2_exceeded_after_five_rounds (reg : Registry) (agent : Agent)
    (gw : Nat → GResponse) (hist0 : List Content) (userMessage : String)
    (hfc : ∀ i, i < 5 → (gw i).parts.any isFc = true)
    (hok : ∀ i, i < 5 → ∀ p ∈ (gw i).parts, execOk reg agent p) :
    ∃ st', processCoordinatorMessage reg agent gw hist0 userMessage
        = .ok (.maxIterError, st')
      ∧ st'.gwRequests.length = 5
      ∧ coordOutcomeType .maxIterError = "error" := by
  obtain ⟨st', h1, h2⟩ := coordLoop_exceeded reg agent gw 5 0
    { persisted := [⟨"user", .text userMessage⟩],
      history := hist0 ++ [⟨"user", [.text userMessage]⟩],
      agentsCalled := [],
      gwRequests := [] }
    (by simpa using hfc) (by simpa using hok)
  exact ⟨st', h1, by simpa using h2, rfl⟩

/-- Concrete instance of C2: a Gemini oracle that requests
`call_budget_agent` every round against a registry whose implementation
succeeds. -/
def agentW : Agent := ⟨1, "main_ai_coordinator"⟩

/-- A registered implementation that always returns a success value. -/
def okImpl : List (String × V) → Except String V := fun _ => .ok (V.s "ok")

/-- A registry with one total tool registered for agent 1. -/
def regW : Registry :=
  fun i => if i = 1 then [("call_budget_agent", ⟨V.s "decl", okImpl⟩)] else []

/-- A Gemini oracle returning a `call_budget_agent` call every round. -/
def gwAllFc : Nat → GResponse := fun _ => ⟨[.funcCall "call_budget_agent" []], none⟩

/-- Witness for C2 at a concrete session. -/
theorem C2_exceeded_after_five_rounds_witness :
    ∃ st', processCoordinatorMessage regW agentW gwAllFc [] "go"
        = .ok (.maxIterError, st')
      ∧ st'.gwRequests.length = 5
      ∧ coordOutcomeType .maxIterError = "error" := by
  apply C2_exceeded_after_five_rounds
  · intro i hi
    rfl
  · intro i hi p hp n a hpa
    simp only [gwAllFc, List.mem_singleton] at hp
    subst hp
    cases hpa
    exact ⟨V.s "ok", rfl⟩

/-- Claim C7: a Gemini response with no tool-call request in any part
makes the coordinator loop terminate in round 1 with the
`{"type": "response"}` dictionary carrying that response's text, after
appending exactly one new model-role turn (plus the user message
persisted before the loop). -/
theorem C7_zero_tool_call_done_round_one (reg : Registry) (agent : Agent)
    (gw : Nat → GResponse) (hist0 : List Content) (userMessage : String)
    (h : (gw 0).parts.any isFc = false) :
    processCoordinatorMessage reg agent gw hist0 userMessage
      = .ok (.response (coordFinalMessage (gw 0).text) none,
          { persisted := [⟨"user", .text userMessage⟩,
                          ⟨"model", .text (coordPersistText (gw 0).text)⟩],
            history := hist0 ++ [⟨"user", [.text userMessage]⟩],
            agentsCalled := [],
            gwRequests := [hist0 ++ [⟨"user", [.text userMessage]⟩]] })
      ∧ (∀ t, (gw 0).text = some t → t ≠ "" → coordFinalMessage (gw 0).text = t) := by
  constructor
  · rw [processCoordinatorMessage, show (5 : Nat) = 4 + 1 from rfl, coordLoop_succ,
      procParts_no_fc reg agent _ _ h]
    simp [h, optCalled]
  · intro t ht hne
    rw [ht]
    simp [coordFinalMessage, hne]

/-- Witness for C7 at a concrete session. -/
theorem C7_zero_tool_call_done_round_one_witness :
    processCoordinatorMessage regW agentW (fun _ => ⟨[.textPart "hello"], some "hello"⟩)
        [] "hi"
      = .ok (.response "hello" none,
          { persisted := [⟨"user", .text "hi"⟩, ⟨"model", .text "hello"⟩],
            history := [⟨"user", [.text "hi"]⟩],
            agentsCalled := [],
            gwRequests := [[⟨"user", [.text "hi"]⟩]] }) := by
  have := (C7_zero_tool_call_done_round_one regW agentW
    (fun _ => ⟨[.textPart "hello"], some "hello"⟩) [] "hi" rfl).1
  simpa [coordFinalMessage, coordPersistText] using this

lemma dictGet_dictSet_self (d : List (String × V)) (k : String) (v : V) :
    dictGet (dictSet d k v) k = some v := by
  induction d with
  | nil => simp [dictSet, dictGet]
  | cons p rest ih =>
    obtain ⟨k1, v1⟩ := p
    by_cases h : k1 = k
    · simp [dictSet, dictGet, h]
    · simp [dictSet, dictGet, h, ih]

lemma coordLoop_persisted_noUser (reg : Registry) (agent : Agent)
    (gw : Nat → GResponse) : ∀ (fuel iter : Nat) (st : St) (o : CoordOutcome)
    (st' : St), coordLoop reg agent gw fuel iter st = .ok (o, st') →
    (∀ t ∈ st.persisted, noUserArgs t) → ∀ t ∈ st'.persisted, noUserArgs t := by
  intro fuel
  induction fuel with
  | zero =>
    intro iter st o st' h hprev
    simp only [coordLoop] at h
    cases h
    exact hprev
  | succ fuel ih =>
    intro iter st o st' h hprev
    rw [coordLoop_succ] at h
    cases hpp : procParts reg agent
        { st with gwRequests := st.gwRequests ++ [st.history] } (gw iter).parts with
    | error e => rw [hpp] at h; cases h
    | ok st1 =>
      rw [hpp] at h
      dsimp only at h
      have hst1 : ∀ t ∈ st1.persisted, noUserArgs t :=
        procParts_persisted reg agent _ st1 _ hpp hprev
      by_cases hfc : (gw iter).parts.any isFc
      · rw [if_pos hfc] at h
        exact ih (iter + 1) st1 o st' h hst1
      · rw [if_neg hfc] at h
        cases h
        intro t ht
        simp only [List.mem_append, List.mem_singleton] at ht
        rcases ht with ht | ht
        · exact hst1 t ht
        · subst ht
          intro n a hpart
          cases hpart

/-- Claim C9: every `function_call` turn persisted by the coordinator
loop stores its arguments with the injected `'user'` identity removed
(no persisted args dictionary contains a `'user'` key), even though the
executed implementation received the args with `'user'` set. -/
theorem C9_persisted_call_args_drop_user (reg : Registry) (agent : Agent)
    (gw : Nat → GResponse) (hist0 : List Content) (userMessage : String)
    (o : CoordOutcome) (st' : St)
    (h : processCoordinatorMessage reg agent gw hist0 userMessage = .ok (o, st')) :
    (∀ t ∈ st'.persisted, ∀ n a, t.part = .functionCall n a →
      ∀ p ∈ a, p.1 ≠ "user")
    ∧ ∀ args, dictGet (dictSet args "user" V.user) "user" = some V.user := by
  constructor
  · have h0 : ∀ t ∈ [(⟨"user", .text userMessage⟩ : Turn)], noUserArgs t := by
      intro t ht
      simp only [List.mem_singleton] at ht
      subst ht
      intro n a hpart
      cases hpart
    exact coordLoop_persisted_noUser reg agent gw 5 0 _ o st' h h0
  · intro args
    exact dictGet_dictSet_self args "user" V.user

/-- A Gemini oracle: one `call_budget_agent` request, then a final text. -/
def gwOneCall : Nat → GResponse :=
  fun i => if i = 0 then ⟨[.funcCall "call_budget_agent" [("x", V.s "1")]], none⟩
           else ⟨[.textPart "done"], some "done"⟩

/-- The state produced by `processCoordinatorMessage regW agentW gwOneCall [] "hi"`. -/
def stOneCall : St :=
  { persisted := [⟨"user", .text "hi"⟩,
                  ⟨"model", .functionCall "call_budget_agent" [("x", V.s "1")]⟩,
                  ⟨"user", .functionResponse "call_budget_agent" (V.s "ok")⟩,
                  ⟨"model", .text "done"⟩],
    history := [⟨"user", [.text "hi"]⟩,
                ⟨"model", [.functionCall "call_budget_agent" [("x", V.s "1")]]⟩,
                ⟨"user", [.functionResponse "call_budget_agent" (V.s "ok")]⟩],
    agentsCalled := [V.s "budget_agent"],
    gwRequests := [[⟨"user", [.text "hi"]⟩],
                   [⟨"user", [.text "hi"]⟩,
                    ⟨"model", [.functionCall "call_budget_agent" [("x", V.s "1")]]⟩,
                    ⟨"user", [.functionResponse "call_budget_agent" (V.s "ok")]⟩]] }

/-- Witness for C9 at a concrete session containing a persisted
`function_call` turn. -/
theorem C9_persisted_call_args_drop_user_witness :
    processCoordinatorMessage regW agentW gwOneCall [] "hi"
      = .ok (.response "done" (some [V.s "budget_agent"]), stOneCall)
    ∧ (∀ t ∈ stOneCall.persisted, ∀ n a, t.part = .functionCall n a →
        ∀ p ∈ a, p.1 ≠ "user") := by
  have hr : processCoordinatorMessage regW agentW gwOneCall [] "hi"
      = .ok (.response "done" (some [V.s "budget_agent"]), stOneCall) := rfl
  exact ⟨hr, (C9_persisted_call_args_drop_user regW agentW gwOneCall [] "hi"
    _ stOneCall hr).1⟩

lemma getLast?_mem {α : Type} : ∀ (l : List α) (a : α), l.getLast? = some a → a ∈ l := by
  intro l
  induction l with
  | nil => intro a h; cases h
  | cons x xs ih =>
    intro a h
    cases xs with
    | nil =>
      simp only [List.getLast?_singleton, Option.some.injEq] at h
      subst h
      exact List.mem_singleton_self x
    | cons y ys =>
      rw [List.getLast?_cons_cons] at h
      exact List.mem_cons_of_mem x (ih a h)

lemma lastRole_concat (l : List Content) (c : Content) :
    lastRole (l ++ [c]) = some c.role := by
  simp [lastRole, List.getLast?_concat]

lemma coordLoop_requests_user (reg : Registry) (agent : Agent)
    (gw : Nat → GResponse) : ∀ (fuel iter : Nat) (st : St) (o : CoordOutcome)
    (st' : St), coordLoop reg agent gw fuel iter st = .ok (o, st') →
    lastRole st.history = some "user" →
    (∀ r ∈ st.gwRequests, lastRole r = some "user") →
    ∀ r ∈ st'.gwRequests, lastRole r = some "user" := by
  intro fuel
  induction fuel with
  | zero =>
    intro iter st o st' h hhist hreq
    simp only [coordLoop] at h
    cases h
    exact hreq
  | succ fuel ih =>
    intro iter st o st' h hhist hreq
    rw [coordLoop_succ] at h
    cases hpp : procParts reg agent
        { st with gwRequests := st.gwRequests ++ [st.history] } (gw iter).parts with
    | error e => rw [hpp] at h; cases h
    | ok st1 =>
      rw [hpp] at h
      dsimp only at h
      have hreq1 : ∀ r ∈ st1.gwRequests, lastRole r = some "user" := by
        rw [procParts_gwRequests reg agent _ st1 _ hpp]
        intro r hr
        simp only [List.mem_append, List.mem_singleton] at hr
        rcases hr with hr | hr
        · exact hreq r hr
        · subst hr
          exact hhist
      have hhist1 : lastRole st1.history = some "user" := by
        rcases procParts_history reg agent _ st1 _ hpp with h2 | h2
        · rw [h2]
          exact hhist
        · exact h2
      by_cases hfc : (gw iter).parts.any isFc
      · rw [if_pos hfc] at h
        exact ih (iter + 1) st1 o st' h hhist1 hreq1
      · rw [if_neg hfc] at h
        cases h
        exact hreq1

/-- Claim C8: the history sent to the Gemini backend on a fresh call
always ends in a `role="user"` turn. In the onboarding agent, a
synthetic `"start"` user turn is injected whenever the prepared history
is empty or ends in a model turn; in the coordinator, every
`generate_content` request of a completed run ends in a user-role turn
(the new user message, or a `function_response` turn). -/
theorem C8_last_turn_sent_is_user_role :
    (∀ (hist0 : List Content) (userMessage : Option String),
      (∀ c ∈ hist0, c.role = "user" ∨ c.role = "model") →
      lastRole (onbPrep hist0 userMessage).1 = some "user")
    ∧ (∀ (reg : Registry) (agent : Agent) (gw : Nat → GResponse)
        (hist0 : List Content) (userMessage : String) (o : CoordOutcome) (st' : St),
        processCoordinatorMessage reg agent gw hist0 userMessage = .ok (o, st') →
        ∀ r ∈ st'.gwRequests, lastRole r = some "user") := by
  constructor
  · intro hist0 userMessage hwf
    unfold onbPrep
    have main : ∀ (h1 : List Content) (t1 : List Turn),
        (h1 = hist0 ∨ lastRole h1 = some "user") →
        lastRole (if h1.isEmpty || (h1.getLast?.map Content.role) = some "model" then
            (h1 ++ [⟨"user", [.text "start"]⟩], t1 ++ [⟨"user", .text "start"⟩])
          else (h1, t1)).1 = some "user" := by
      intro h1 t1 hsrc
      by_cases hc : h1.isEmpty || (h1.getLast?.map Content.role) = some "model"
      · rw [if_pos hc]
        exact lastRole_concat h1 _
      · rw [if_neg hc]
        simp only [Bool.or_eq_true, List.isEmpty_iff, decide_eq_true_eq, not_or] at hc
        rcases hsrc with hsrc | hsrc
        · subst hsrc
          cases hlast : h1.getLast? with
          | none =>
            exfalso
            exact hc.1 (List.getLast?_eq_none_iff.mp hlast)
          | some c =>
            have hmem := getLast?_mem h1 c hlast
            have hrole := hwf c hmem
            have hnm : ¬ (h1.getLast?.map Content.role) = some "model" := hc.2
            rw [hlast] at hnm
            simp only [Option.map_some', Option.some.injEq] at hnm
            rcases hrole with hrole | hrole
            · simp [lastRole, hlast, hrole]
            · exact absurd hrole hnm
        · exact hsrc
    cases userMessage with
    | none => exact main hist0 [] (Or.inl rfl)
    | some m =>
      by_cases hm : m = ""
      · simp only [hm, if_pos rfl]
        exact main hist0 [] (Or.inl rfl)
      · simp only [if_neg hm]
        exact main (hist0 ++ [⟨"user", [.text m]⟩]) _
          (Or.inr (lastRole_concat hist0 _))
  · intro reg agent gw hist0 userMessage o st' h
    exact coordLoop_requests_user reg agent gw 5 0 _ o st' h
      (lastRole_concat hist0 _) (by intro r hr; cases hr)

/-- Witness for C8: a stored history ending in a model turn gets the
synthetic `"start"` turn, and a concrete completed coordinator run only
issued requests ending in a user turn. -/
theorem C8_last_turn_sent_is_user_role_witness :
    lastRole (onbPrep [⟨"model", [.text "q"]⟩] none).1 = some "user"
    ∧ ∀ r ∈ stOneCall.gwRequests, lastRole r = some "user" := by
  constructor
  · apply C8_last_turn_sent_is_user_role.1
    intro c hc
    simp only [List.mem_singleton] at hc
    subst hc
    exact Or.inr rfl
  · exact C8_last_turn_sent_is_user_role.2 regW agentW gwOneCall [] "hi"
      (.response "done" (some [V.s "budget_agent"])) stOneCall rfl

/-- Processing only the `function_call` parts, in order (the parts
without a `function_call` are no-ops in the loop body). -/
def procFcs (reg : Registry) (agent : Agent) :
    St → List (String × List (String × V)) → Except String St
  | st, [] => .ok st
  | st, (n, a) :: rest =>
    match procPart reg agent st (.funcCall n a) with
    | .error e => .error e
    | .ok st' => procFcs reg agent st' rest

lemma procParts_eq_procFcs (reg : Registry) (agent : Agent) (ps : List RPart) :
    ∀ st, procParts reg agent st ps = procFcs reg agent st (ps.filterMap fcOf) := by
  induction ps with
  | nil => intro st; rfl
  | cons p rest ih =>
    intro st
    cases p with
    | textPart s => simpa [procParts, procPart, fcOf] using ih st
    | funcCall n a =>
      simp only [procParts, List.filterMap_cons, fcOf, procFcs]
      cases hp : procPart reg agent st (.funcCall n a) with
      | error e => rfl
      | ok st1 => exact ih st1

lemma any_isFc_of_filterMap (ps : List RPart) (n : String)
    (a : List (String × V)) (l : List (String × List (String × V)))
    (h : ps.filterMap fcOf = (n, a) :: l) : ps.any isFc = true := by
  induction ps with
  | nil => cases h
  | cons p rest ih =>
    cases p with
    | textPart s =>
      simp only [List.filterMap_cons, fcOf] at h
      simpa [isFc] using ih h
    | funcCall n' a' => simp [isFc]

/-- Counterexample to claim C3 as stated: in the coordinator session
where round 1 returns one tool call and round 2 plain text, exactly 3
(not 4) new turns are appended after the user-message turn; the total
including the user message is 4. -/
theorem C3_counterexample :
    processCoordinatorMessage regW agentW gwOneCall [] "hi"
      = .ok (.response "done" (some [V.s "budget_agent"]), stOneCall)
    ∧ stOneCall.persisted.length = 4
    ∧ ((stOneCall.persisted.drop 1).length = 4 → False) := by
  refine ⟨rfl, rfl, ?_⟩
  intro h
  simp [stOneCall] at h

/-- Claim C3 (amended): when round 1 returns exactly one tool call
(whose execution returns `v`) and round 2 a non-empty plain text `t`,
the coordinator loop appends exactly 4 new turns in total — the user
message, then `[tool-request (model), tool-result (user), final text
(model)]`, the tool-request immediately followed by its single
tool-result for the same name before the second Gemini request — and
exits with the final text after exactly 2 requests. -/
theorem C3_one_call_then_text_turn_sequence (reg : Registry) (agent : Agent)
    (gw : Nat → GResponse) (hist0 : List Content) (userMessage : String)
    (n : String) (a : List (String × V)) (v : V) (t : String)
    (h0 : (gw 0).parts.filterMap fcOf = [(n, a)])
    (hex : executeFunction reg agent n (dictSet a "user" V.user) = .ok v)
    (h1 : (gw 1).parts.any isFc = false)
    (ht : (gw 1).text = some t) (hne : t ≠ "") :
    processCoordinatorMessage reg agent gw hist0 userMessage
      = .ok (.response t (optCalled (calledEntryFor n (dictSet a "user" V.user))),
          { persisted := [⟨"user", .text userMessage⟩,
              ⟨"model", .functionCall n (dictDropKey (dictSet a "user" V.user) "user")⟩,
              ⟨"user", .functionResponse n v⟩,
              ⟨"model", .text t⟩],
            history := hist0 ++ [⟨"user", [.text userMessage]⟩,
              ⟨"model", [.functionCall n (dictDropKey (dictSet a "user" V.user) "user")]⟩,
              ⟨"user", [.functionResponse n v]⟩],
            agentsCalled := calledEntryFor n (dictSet a "user" V.user),
            gwRequests := [hist0 ++ [⟨"user", [.text userMessage]⟩],
              hist0 ++ [⟨"user", [.text userMessage]⟩,
                ⟨"model", [.functionCall n (dictDropKey (dictSet a "user" V.user) "user")]⟩,
                ⟨"user", [.functionResponse n v]⟩]] }) := by
  have hfc0 : (gw 0).parts.any isFc = true := any_isFc_of_filterMap _ n a [] h0
  rw [processCoordinatorMessage]
  rw [show (5 : Nat) = 4 + 1 from rfl, coordLoop_succ]
  rw [procParts_eq_procFcs, h0]
  simp only [procFcs, procPart, hex]
  rw [if_pos hfc0]
  rw [show (4 : Nat) = 3 + 1 from rfl, coordLoop_succ]
  simp only [Nat.zero_add]
  rw [procParts_no_fc reg agent _ _ h1]
  dsimp only
  rw [if_neg (by simp [h1])]
  simp [ht, coordFinalMessage, coordPersistText, hne]

/-- Witness for C3 (amended) at the concrete one-call session. -/
theorem C3_one_call_then_text_turn_sequence_witness :
    processCoordinatorMessage regW agentW gwOneCall [] "hi"
      = .ok (.response "done" (some [V.s "budget_agent"]), stOneCall) := by
  have h := C3_one_call_then_text_turn_sequence regW agentW gwOneCall [] "hi"
    "call_budget_agent" [("x", V.s "1")] (V.s "ok") "done"
    rfl rfl rfl rfl (by decide)
  simpa [stOneCall, calledEntryFor, dictSet, dictDropKey, dictGet, optCalled] using h

/-- A registered implementation that always raises. -/
def boomImpl : List (String × V) → Except String V := fun _ => .error "boom failed"

/-- A registry whose only tool for agent 1 fails when invoked. -/
def regBoom : Registry :=
  fun i => if i = 1 then [("boom", ⟨V.s "decl", boomImpl⟩)] else []

/-- A Gemini oracle that always requests the failing tool. -/
def gwBoom : Nat → GResponse := fun _ => ⟨[.funcCall "boom" []], none⟩

/-- Counterexample to claim C1 as stated: with a registered tool whose
implementation fails, the whole coordinator invocation aborts with the
raised fault — no `{type: error}` value is returned by the dispatcher
and nothing is persisted as a next turn. -/
theorem C1_counterexample :
    processCoordinatorMessage regBoom agentW gwBoom [] "hi"
      = .error "boom failed" := rfl

/-- Claim C1 (amended): `execute_function` performs no wrapping. A
registered tool's result — including a raised failure — is returned
unchanged; a missing tool raises the `ValueError` naming function and
agent; and inside the orchestration loop a failing execution aborts the
round before any turn for that call is persisted. -/
theorem C1_dispatcher_propagates_failures :
    (∀ (reg : Registry) (agent : Agent) (funcName : String)
      (args : List (String × V)) (entry : FuncEntry),
      alGet (getAgentFunctions reg agent.id) funcName = some entry →
      executeFunction reg agent funcName args = entry.fn args)
    ∧ (∀ (reg : Registry) (agent : Agent) (funcName : String)
      (args : List (String × V)),
      alGet (getAgentFunctions reg agent.id) funcName = none →
      executeFunction reg agent funcName args
        = .error ("Function '" ++ funcName ++ "' not found in agent '"
            ++ agent.name ++ "'."))
    ∧ (∀ (reg : Registry) (agent : Agent) (st : St) (n : String)
      (a : List (String × V)) (e : String),
      executeFunction reg agent n (dictSet a "user" V.user) = .error e →
      procPart reg agent st (.funcCall n a) = .error e) := by
  refine ⟨?_, ?_, ?_⟩
  · intro reg agent funcName args entry h
    unfold executeFunction
    rw [h]
  · intro reg agent funcName args h
    unfold executeFunction
    rw [h]
  · intro reg agent st n a e h
    simp only [procPart, h]

/-- Witness for C1 (amended) at the concrete failing registry. -/
theorem C1_dispatcher_propagates_failures_witness :
    executeFunction regBoom agentW "boom" [] = boomImpl []
    ∧ executeFunction regBoom agentW "missing" []
      = .error "Function 'missing' not found in agent 'main_ai_coordinator'."
    ∧ procPart regBoom agentW
        { persisted := [], history := [], agentsCalled := [], gwRequests := [] }
        (.funcCall "boom" []) = .error "boom failed" := by
  refine ⟨?_, ?_, ?_⟩
  · exact C1_dispatcher_propagates_failures.1 regBoom agentW "boom" []
      ⟨V.s "decl", boomImpl⟩ rfl
  · exact C1_dispatcher_propagates_failures.2.1 regBoom agentW "missing" [] rfl
  · exact C1_dispatcher_propagates_failures.2.2 regBoom agentW _ "boom" []
      "boom failed" rfl

/-- Claim C5: the inter-agent router validates the target against the
fixed allow-list (the `agent_map` keys): an unlisted target fails with
the "not recognized" error (a raised `ValueError`, embedded as the
`Except.error` result) without attempting dispatch, and a listed target
invokes the mapped peer call with the same user and returns its result
unchanged. -/
theorem C5_router_allow_list (agentMap : String → V → String → Except String V)
    (agentName message : String) (userCtx : V) :
    (agentName ∉ routerAgentNames →
      sendMessageToAgent agentMap agentName message userCtx
        = .error ("Agent '" ++ agentName ++ "' is not recognized or not yet implemented."))
    ∧ (agentName ∈ routerAgentNames →
      sendMessageToAgent agentMap agentName message userCtx
        = agentMap agentName userCtx message) := by
  constructor
  · intro h
    unfold sendMessageToAgent
    rw [if_neg h]
  · intro h
    unfold sendMessageToAgent
    rw [if_pos h]

/-- A concrete peer environment for the router. -/
def mapW : String → V → String → Except String V := fun _ _ _ => .ok (V.s "done")

/-- Witness for C5: `onboarding_agent` is off the allow-list and is
rejected; `budget_agent` is on it and is dispatched. -/
theorem C5_router_allow_list_witness :
    ("onboarding_agent" ∉ routerAgentNames
      ∧ sendMessageToAgent mapW "onboarding_agent" "m" V.user
        = .error "Agent 'onboarding_agent' is not recognized or not yet implemented.")
    ∧ ("budget_agent" ∈ routerAgentNames
      ∧ sendMessageToAgent mapW "budget_agent" "m" V.user
        = mapW "budget_agent" V.user "m") := by
  constructor
  · refine ⟨by decide, ?_⟩
    exact (C5_router_allow_list mapW "onboarding_agent" "m" V.user).1 (by decide)
  · refine ⟨by decide, ?_⟩
    exact (C5_router_allow_list mapW "budget_agent" "m" V.user).2 (by decide)

/-- The `"type"` field of a completed coordinator invocation's returned
dictionary (`none` when the invocation raised). -/
def coordResultType (r : Except String (CoordOutcome × St)) : Option String :=
  match r with
  | .ok (o, _) => some (coordOutcomeType o)
  | .error _ => none

/-- Counterexample to claim C4 as stated: a successful coordinator
invocation returns a dictionary with `type = "response"`, which is
neither `"success"` nor `"error"`, so the uniform worker-agent contract
does not hold for the coordinator entry point. -/
theorem C4_counterexample :
    coordResultType (processCoordinatorMessage regW agentW
        (fun _ => ⟨[.textPart "hello"], some "hello"⟩) [] "hi") = some "response"
    ∧ "response" ≠ "success" ∧ "response" ≠ "error" := by
  refine ⟨rfl, by decide, by decide⟩

/-- Claim C4 (amended): the chatbot entry point always returns a
dictionary typed `"success"` or `"error"`; the coordinator's is typed
`"response"` or `"error"`; the onboarding agent's is typed
`"question"`, `"finsh"` or `"error"` — there is no uniform
success-or-error contract across all delegate-able entry points. -/
theorem C4_entry_point_type_fields :
    (∀ o : ChatOutcome, chatOutcomeType o = "success" ∨ chatOutcomeType o = "error")
    ∧ (∀ o : CoordOutcome, coordOutcomeType o = "response" ∨ coordOutcomeType o = "error")
    ∧ (∀ o : OnbOutcome, onbOutcomeType o = "question" ∨ onbOutcomeType o = "finsh"
        ∨ onbOutcomeType o = "error") := by
  refine ⟨?_, ?_, ?_⟩
  · intro o
    cases o with
    | success m => exact Or.inl rfl
    | errorFallback => exact Or.inr rfl
  · intro o
    cases o with
    | response m ac => exact Or.inl rfl
    | maxIterError => exact Or.inr rfl
  · intro o
    cases o with
    | question r => exact Or.inl rfl
    | finsh r => exact Or.inr (Or.inl rfl)
    | errNoFunc => exact Or.inr (Or.inr rfl)

/-! ## Lemmas about `clean_html_tags` -/

lemma findGt_eq_none (l : List Char) : findGt l = none ↔ '>' ∉ l := by
  induction l with
  | nil => simp [findGt]
  | cons c rest ih =>
    by_cases h : c = '>'
    · simp [findGt, h]
    · simp [findGt, h, ih, eq_comm (a := '>') (b := c), Ne.symm h]

lemma findGt_append_some (p q : List Char) (j : Nat) (h : findGt p = some j) :
    findGt (p ++ q) = some j := by
  induction p generalizing j with
  | nil => cases h
  | cons c rest ih =>
    by_cases hc : c = '>'
    · simpa [findGt, hc] using h
    · simp only [findGt, hc, if_false, Option.map_eq_some'] at h
      obtain ⟨j', hj', hjj⟩ := h
      simp only [List.cons_append, findGt, hc, if_false, Option.map_eq_some']
      exact ⟨j', ih j' hj', hjj⟩

lemma tagAt_append (p q : List Char) (h : tagAt p = true) :
    tagAt (p ++ q) = true := by
  unfold tagAt at h ⊢
  cases hf : findGt p with
  | none => rw [hf] at h; cases h
  | some j =>
    rw [hf] at h
    rw [findGt_append_some p q j hf]
    exact h

lemma hasTag_append_left (p q : List Char) (h : hasTag (p ++ q) = false) :
    hasTag p = false := by
  induction p with
  | nil => rfl
  | cons c rest ih =>
    rw [List.cons_append] at h
    simp only [hasTag, Bool.or_eq_false_iff] at h ⊢
    refine ⟨?_, ih h.2⟩
    cases ht : tagAt rest
    · simp [ht]
    · rw [tagAt_append rest q ht] at h
      simp only [Bool.and_true] at h
      simp [h.1]

lemma hasTag_append_right (p q : List Char) (h : hasTag (p ++ q) = false) :
    hasTag q = false := by
  induction p with
  | nil => exact h
  | cons c rest ih =>
    rw [List.cons_append] at h
    simp only [hasTag, Bool.or_eq_false_iff] at h
    exact ih h.2

lemma mem_cleanSubF : ∀ (fuel : Nat) (l : List Char), ∀ a ∈ cleanSubF fuel l, a ∈ l := by
  intro fuel
  induction fuel with
  | zero => intro l a ha; cases ha
  | succ fuel ih =>
    intro l a ha
    cases l with
    | nil => cases ha
    | cons c rest =>
      by_cases hc : c = '<'
      · rw [cleanSubF.eq_3, if_pos hc] at ha
        cases hf : findGt rest with
        | some j =>
          rw [hf] at ha
          dsimp only at ha
          by_cases hj : 1 ≤ j
          · rw [if_pos hj] at ha
            exact List.mem_cons_of_mem _ (List.mem_of_mem_drop (ih _ a ha))
          · rw [if_neg hj] at ha
            rcases List.mem_cons.mp ha with ha | ha
            · subst ha; exact List.mem_cons_self _ _
            · exact List.mem_cons_of_mem _ (ih _ a ha)
        | none =>
          rw [hf] at ha
          dsimp only at ha
          rcases List.mem_cons.mp ha with ha | ha
          · subst ha; exact List.mem_cons_self _ _
          · exact List.mem_cons_of_mem _ (ih _ a ha)
      · rw [cleanSubF.eq_3, if_neg hc] at ha
        rcases List.mem_cons.mp ha with ha | ha
        · subst ha; exact List.mem_cons_self _ _
        · exact List.mem_cons_of_mem _ (ih _ a ha)

lemma tagAt_cleanSubF_keep (fuel : Nat) (rest : List Char)
    (h : findGt rest = some 0 ∨ findGt rest = none) :
    tagAt (cleanSubF fuel rest) = false := by
  cases fuel with
  | zero => rfl
  | succ fuel =>
    cases rest with
    | nil => rfl
    | cons c rest' =>
      rcases h with h | h
      · have hc : c = '>' := by
          by_contra hc
          simp [findGt, hc] at h
        subst hc
        have : cleanSubF (fuel + 1) ('>' :: rest') = '>' :: cleanSubF fuel rest' := by
          rw [cleanSubF.eq_3, if_neg (by decide)]
        rw [this]
        simp [tagAt, findGt]
      · have hc : c ≠ '>' := by
          intro hc
          simp [findGt, hc] at h
        have hnone : '>' ∉ cleanSubF (fuel + 1) (c :: rest') := by
          intro hm
          exact (findGt_eq_none _).mp h (mem_cleanSubF _ _ '>' hm)
        unfold tagAt
        rw [(findGt_eq_none _).mpr hnone]

lemma cleanSubF_no_tag : ∀ (fuel : Nat) (l : List Char), l.length ≤ fuel →
    hasTag (cleanSubF fuel l) = false := by
  intro fuel
  induction fuel with
  | zero => intro l h; rfl
  | succ fuel ih =>
    intro l hlen
    cases l with
    | nil => rfl
    | cons c rest =>
      have hrest : rest.length ≤ fuel := by
        simp only [List.length_cons] at hlen
        omega
      by_cases hc : c = '<'
      · rw [cleanSubF.eq_3, if_pos hc]
        cases hf : findGt rest with
        | some j =>
          dsimp only
          by_cases hj : 1 ≤ j
          · rw [if_pos hj]
            refine ih _ ?_
            simp only [List.length_drop]
            omega
          · rw [if_neg hj]
            have hj0 : j = 0 := by omega
            subst hj0
            simp only [hasTag, Bool.or_eq_false_iff]
            constructor
            · rw [tagAt_cleanSubF_keep fuel rest (Or.inl hf)]
              simp
            · exact ih rest hrest
          -- the kept character is '<'
        | none =>
          dsimp only
          simp only [hasTag, Bool.or_eq_false_iff]
          constructor
          · rw [tagAt_cleanSubF_keep fuel rest (Or.inr hf)]
            simp
          · exact ih rest hrest
      · rw [cleanSubF.eq_3, if_neg hc]
        simp only [hasTag, Bool.or_eq_false_iff]
        constructor
        · simp [hc]
        · exact ih rest hrest

lemma mem_cleanSub (l : List Char) (a : Char) (ha : a ∈ cleanSub l) : a ∈ l :=
  mem_cleanSubF l.length l a ha

lemma cleanSub_no_tag (l : List Char) : hasTag (cleanSub l) = false :=
  cleanSubF_no_tag l.length l (le_refl _)

lemma head?_append_some {α : Type} (A B : List α) (c : α) (h : A.head? = some c) :
    (A ++ B).head? = some c := by
  cases A with
  | nil => cases h
  | cons x xs => simpa using h

lemma head_dropWhile_not (l : List Char) (c : Char)
    (h : (l.dropWhile isPySpace).head? = some c) : isPySpace c = false := by
  induction l with
  | nil => cases h
  | cons a rest ih =>
    by_cases ha : isPySpace a
    · rw [List.dropWhile_cons, if_pos ha] at h
      exact ih h
    · rw [List.dropWhile_cons, if_neg ha] at h
      simp only [List.head?_cons, Option.some.injEq] at h
      subst h
      simpa using ha

lemma pyStrip_decomp (l : List Char) :
    l.dropWhile isPySpace
      = pyStrip l ++ ((l.dropWhile isPySpace).reverse.takeWhile isPySpace).reverse := by
  unfold pyStrip
  rw [← List.reverse_append, List.takeWhile_append_dropWhile, List.reverse_reverse]

lemma hasTag_pyStrip (l : List Char) (h : hasTag l = false) :
    hasTag (pyStrip l) = false := by
  have h1 : hasTag (l.dropWhile isPySpace) = false := by
    refine hasTag_append_right (l.takeWhile isPySpace) _ ?_
    rw [List.takeWhile_append_dropWhile]
    exact h
  exact hasTag_append_left (pyStrip l)
    ((l.dropWhile isPySpace).reverse.takeWhile isPySpace).reverse
    (by rw [← pyStrip_decomp l]; exact h1)

lemma pyStrip_head (l : List Char) (c : Char)
    (h : (pyStrip l).head? = some c) : isPySpace c = false := by
  have h2 := head?_append_some (pyStrip l)
    ((l.dropWhile isPySpace).reverse.takeWhile isPySpace).reverse c h
  rw [← pyStrip_decomp l] at h2
  exact head_dropWhile_not l c h2

lemma pyStrip_getLast (l : List Char) (c : Char)
    (h : (pyStrip l).getLast? = some c) : isPySpace c = false := by
  unfold pyStrip at h
  rw [List.getLast?_reverse] at h
  exact head_dropWhile_not ((l.dropWhile isPySpace).reverse) c h

lemma cleanHtmlTags_spec (s : String) :
    hasTag (cleanHtmlTags s).data = false
    ∧ (∀ c, (cleanHtmlTags s).data.head? = some c → isPySpace c = false)
    ∧ (∀ c, (cleanHtmlTags s).data.getLast? = some c → isPySpace c = false) := by
  have hdata : (cleanHtmlTags s).data = pyStrip (cleanSub s.data) := rfl
  rw [hdata]
  exact ⟨hasTag_pyStrip _ (cleanSub_no_tag s.data),
    fun c h => pyStrip_head _ c h,
    fun c h => pyStrip_getLast _ c h⟩

lemma chatLoop_success (impls : String → Option (List (String × V) → Except String V))
    (gw : Nat → GResponse) : ∀ (fuel iter : Nat) (st : ChatSt) (m : String)
    (st' : ChatSt), chatLoop impls gw fuel iter st = .ok (.success m, st') →
    (∃ raw, m = cleanHtmlTags raw)
    ∧ st'.persisted.getLast? = some ⟨"model", .text m⟩ := by
  intro fuel
  induction fuel with
  | zero =>
    intro iter st m st' h
    simp only [chatLoop] at h
    simp at h
  | succ fuel ih =>
    intro iter st m st' h
    simp only [chatLoop] at h
    by_cases hempty : (gw iter).parts.isEmpty
    · rw [if_pos hempty] at h
      simp at h
    · rw [if_neg hempty] at h
      cases hfs : (gw iter).parts.findSome? fcOf with
      | some pr =>
        obtain ⟨funcName, funcArgs⟩ := pr
        rw [hfs] at h
        dsimp only at h
        cases hd : chatDispatch impls funcName funcArgs with
        | error e => rw [hd] at h; cases h
        | ok result =>
          rw [hd] at h
          dsimp only at h
          exact ih _ _ _ _ h
      | none =>
        rw [hfs] at h
        dsimp only at h
        simp only [Except.ok.injEq, Prod.mk.injEq, ChatOutcome.success.injEq] at h
        obtain ⟨hm, hst⟩ := h
        subst hm
        subst hst
        refine ⟨⟨_, rfl⟩, ?_⟩
        simp [List.getLast?_concat]

/-- Claim C10: every final text answer of the chatbot agent — the
message of a returned `{"type": "success"}` dictionary — went through
`clean_html_tags`: it contains no substring matching `<[^>]+>`, has no
leading or trailing whitespace, and is exactly the text persisted as the
final model turn. -/
theorem C10_chat_final_message_clean
    (impls : String → Option (List (String × V) → Except String V))
    (gw : Nat → GResponse) (profile : String) (hist0 : List Content)
    (message m : String) (st' : ChatSt)
    (h : processChatbotMessage impls gw profile hist0 message
      = .ok (.success m, st')) :
    hasTag m.data = false
    ∧ (∀ c, m.data.head? = some c → isPySpace c = false)
    ∧ (∀ c, m.data.getLast? = some c → isPySpace c = false)
    ∧ st'.persisted.getLast? = some ⟨"model", .text m⟩ := by
  obtain ⟨⟨raw, hm⟩, hlast⟩ := chatLoop_success impls gw 5 0 _ m st' h
  subst hm
  obtain ⟨h1, h2, h3⟩ := cleanHtmlTags_spec raw
  exact ⟨h1, h2, h3, hlast⟩

/-- The state produced by the concrete chatbot session of the C10
witness: the model answers `"<b>hi</b> "`, persisted and returned as
`"hi"`. -/
def stChatW : ChatSt :=
  { persisted := [⟨"user", .text "m"⟩, ⟨"model", .text "hi"⟩],
    history := [⟨"user", [.text "x"]⟩, ⟨"user", [.text "m"]⟩] }

/-- Witness for C10 at a concrete session whose model text carries an
HTML tag and trailing whitespace. -/
theorem C10_chat_final_message_clean_witness :
    processChatbotMessage (fun _ => none)
        (fun _ => ⟨[.textPart "x"], some "<b>hi</b> "⟩) "P"
        [⟨"user", [.text "x"]⟩] "m"
      = .ok (.success "hi", stChatW)
    ∧ hasTag "hi".data = false
    ∧ stChatW.persisted.getLast? = some ⟨"model", .text "hi"⟩ := by
  have hr : processChatbotMessage (fun _ => none)
      (fun _ => ⟨[.textPart "x"], some "<b>hi</b> "⟩) "P"
      [⟨"user", [.text "x"]⟩] "m" = .ok (.success "hi", stChatW) := rfl
  have hc := C10_chat_final_message_clean _ _ _ _ _ _ _ hr
  exact ⟨hr, hc.1, hc.2.2.2⟩

/-- The chatbot loop persists each tool-call-request turn twice (once
before executing, once after — `chat/services.py` lines 276 and 313), so
one tool round followed by a final text leaves five persisted turns with
a duplicated request. -/
lemma chat_persists_request_twice :
    processChatbotMessage
        (fun n => if n = "call_main_coordinator" then
          some (fun _ => .ok (V.s "r")) else none)
        (fun i => if i = 0 then ⟨[.funcCall "call_main_coordinator" []], none⟩
                  else ⟨[.textPart "x"], some "ok"⟩)
        "P" [⟨"user", [.text "x"]⟩] "m"
      = .ok (.success "ok",
          { persisted := [⟨"user", .text "m"⟩,
              ⟨"model", .functionCall "call_main_coordinator" []⟩,
              ⟨"model", .functionCall "call_main_coordinator" []⟩,
              ⟨"user", .functionResponse "call_main_coordinator" (V.s "r")⟩,
              ⟨"model", .text "ok"⟩],
            history := [⟨"user", [.text "x"]⟩, ⟨"user", [.text "m"]⟩,
              ⟨"model", [.functionCall "call_main_coordinator" []]⟩,
              ⟨"model", [.functionCall "call_main_coordinator" []]⟩,
              ⟨"user", [.functionResponse "call_main_coordinator" (V.s "r")]⟩] }) := rfl

end MoneyMate
